import Mathlib

/-!
Verification development for the `diff-buildings` MPC tutorial
(`src/resources/tutorials/jax/optimal_control_mpc.py`, with the RC state-space
model also appearing in `src/resources/jax/forward-simulation/state_space.py`).

The embedding works over exact rationals (ℚ) in place of floating point.
jax/numpy arrays are modelled by `NdArr` (a shape together with row-major
flat data) and the numpy broadcasting rules are implemented faithfully, since
several cost-function expressions in the source rely on implicit broadcasting.
External libraries are modelled as follows: the diffrax `Euler` solver performs
the explicit Euler update `y1 = y0 + (t1 - t0) * f(t0, y0)`; the optax
optimizer update together with `jax.value_and_grad`'s gradient component is an
abstract parameter `updF` of the optimization loop (the loss component of
`value_and_grad` is the actual loss function, embedded exactly); jax's
out-of-bounds array indexing clamps to the last valid index.
-/

section RatKernelEval

attribute [local semireducible] Rat.add Rat.mul Rat.inv Rat.sub

/-! ## Arrays with numpy broadcasting semantics -/

/-- A jax/numpy ndarray over exact rationals: a shape and row-major flat data. -/
structure NdArr where
  shape : List ℕ
  data : List ℚ
deriving DecidableEq

/-- Number of elements described by a shape. -/
def prodShape (s : List ℕ) : ℕ := s.foldr (fun a b => a * b) 1

/-- All multi-indices of a shape, in row-major order. -/
def allIdx : List ℕ → List (List ℕ)
  | [] => [[]]
  | n :: s => (List.range n).flatMap (fun i => (allIdx s).map (fun ix => i :: ix))

/-- Row-major flat position of a multi-index in a shape. -/
def flatIdx (s ix : List ℕ) : ℕ :=
  (List.zip s ix).foldl (fun acc p => acc * p.1 + p.2) 0

/-- Element lookup by multi-index (0 when out of range). -/
def ndGet (a : NdArr) (ix : List ℕ) : ℚ := a.data.getD (flatIdx a.shape ix) 0

/-- Broadcast of one dimension pair (numpy rule: equal, or one of them is 1). -/
def bc1 (a b : ℕ) : Option ℕ :=
  if a = b then some a else if a = 1 then some b else if b = 1 then some a else none

/-- Broadcast of two reversed (innermost-first) shape lists. -/
def bcRev : List ℕ → List ℕ → Option (List ℕ)
  | [], t => some t
  | s, [] => some s
  | a :: s, b :: t =>
    match bc1 a b, bcRev s t with
    | some d, some r => some (d :: r)
    | _, _ => none

/-- Numpy broadcast of two shapes (align trailing dimensions). -/
def broadcastShapes (s t : List ℕ) : Option (List ℕ) :=
  (bcRev s.reverse t.reverse).map List.reverse

/-- Map a multi-index of the broadcast result to a multi-index of an operand of
shape `s`: drop the leading extra axes, and clamp axes of extent 1 to 0. -/
def opIdx (s ix : List ℕ) : List ℕ :=
  ((List.zip s (ix.drop (ix.length - s.length))).map
    (fun p => if p.1 = 1 then 0 else p.2))

/-- Broadcasting elementwise binary operation. Incompatible shapes (where jnp
would raise) give the empty array; no claim instance reaches that branch. -/
def ndZip (f : ℚ → ℚ → ℚ) (a b : NdArr) : NdArr :=
  match broadcastShapes a.shape b.shape with
  | some sh =>
    ⟨sh, (allIdx sh).map (fun ix => f (ndGet a (opIdx a.shape ix)) (ndGet b (opIdx b.shape ix)))⟩
  | none => ⟨[], []⟩

/-- Elementwise `+` with broadcasting. -/
def ndAdd : NdArr → NdArr → NdArr := ndZip (fun x y => x + y)

/-- Elementwise `-` with broadcasting. -/
def ndSub : NdArr → NdArr → NdArr := ndZip (fun x y => x - y)

/-- Elementwise `*` with broadcasting. -/
def ndMul : NdArr → NdArr → NdArr := ndZip (fun x y => x * y)

/-- Elementwise map (shape preserved). -/
def ndMap (f : ℚ → ℚ) (a : NdArr) : NdArr := ⟨a.shape, a.data.map f⟩

/-- `jax.nn.relu`. -/
def relu (q : ℚ) : ℚ := max q 0

/-- Elementwise relu. -/
def ndRelu : NdArr → NdArr := ndMap relu

/-- Elementwise `jnp.abs`. -/
def ndAbs : NdArr → NdArr := ndMap (fun q => |q|)

/-- `jnp.sum` over all elements. -/
def ndSum (a : NdArr) : ℚ := a.data.foldr (fun x y => x + y) 0

/-- A scalar (shape `()` ndarray, which is how a python float enters jnp ops). -/
def ndScalar (q : ℚ) : NdArr := ⟨[], [q]⟩

/-- `jnp.zeros` for a given shape. -/
def ndZerosL (s : List ℕ) : NdArr := ⟨s, List.replicate (prodShape s) 0⟩

/-- `a.at[i, j].set v` for a rank-2 array. -/
def ndSet2 (a : NdArr) (i j : ℕ) (v : ℚ) : NdArr :=
  ⟨a.shape, a.data.set (i * a.shape.getD 1 1 + j) v⟩

/-- `jnp.matmul` for rank-2 operands (the only rank the source multiplies). -/
def ndMatmul (a b : NdArr) : NdArr :=
  match a.shape, b.shape with
  | [m, k], [k2, n] =>
    if k = k2 then
      ⟨[m, n], (List.range m).flatMap (fun i => (List.range n).map
        (fun j => ((List.range k).map (fun t => ndGet a [i, t] * ndGet b [t, j])).foldr
          (fun x y => x + y) 0))⟩
    else ⟨[], []⟩
  | _, _ => ⟨[], []⟩

/-- Row slicing `a[k:]` for a rank-2 array. -/
def ndDropRows (a : NdArr) (k : ℕ) : NdArr :=
  match a.shape with
  | [r, c] => ⟨[r - k, c], a.data.drop (k * c)⟩
  | _ => ⟨[], []⟩

/-- `jnp.concatenate` along axis 0 for rank-2 arrays of equal column count. -/
def ndVcat (a b : NdArr) : NdArr :=
  match a.shape, b.shape with
  | [r1, c1], [r2, c2] => if c1 = c2 then ⟨[r1 + r2, c1], a.data ++ b.data⟩ else ⟨[], []⟩
  | _, _ => ⟨[], []⟩

/-! ## Fixed-size vectors for the ODE state and disturbance rows -/

/-- A fixed-length vector of rationals. -/
def Vec (n : ℕ) : Type := Fin n → ℚ

instance (n : ℕ) : DecidableEq (Vec n) := fun v w =>
  Fintype.decidablePiFintype v w

/-- Build a 3-vector. -/
def vec3 (a b c : ℚ) : Vec 3 := fun i => if i.val = 0 then a else if i.val = 1 then b else c

/-- Build a 5-vector. -/
def vec5 (a b c d e : ℚ) : Vec 5 := fun i =>
  if i.val = 0 then a else if i.val = 1 then b else if i.val = 2 then c
  else if i.val = 3 then d else e

/-- The all-zero 5-vector (used as a junk default for list lookups). -/
def zero5 : Vec 5 := fun _ => 0

/-! ## The RC zone model: `get_ABCD` -/

/-- The seven RC parameters `predictor['zone_model'] = [Cai, Cwe, Cwi, Re, Ri, Rw, Rg]`. -/
structure ZoneParams where
  Cai : ℚ
  Cwe : ℚ
  Cwi : ℚ
  Re : ℚ
  Ri : ℚ
  Rw : ℚ
  Rg : ℚ
deriving DecidableEq

/-- A python value that is either a scalar or an ndarray. `get_ABCD` returns the
python int `0` for `D`, while `RCModel.fyu` in `state_space.py` materializes a
`(1, 5)` zero array; this type keeps the distinction observable. -/
inductive PyVal where
  | scalar (q : ℚ)
  | arr (a : NdArr)
deriving DecidableEq

/-- `get_ABCD` of `optimal_control_mpc.py` lines 174-198. `A`, `B`, `C` are
assembled by `.at[i, j].set` updates of `jnp.zeros`; `D = 0` is a python scalar. -/
def get_ABCD (p : ZoneParams) : NdArr × NdArr × NdArr × PyVal :=
  let A := ndZerosL [3, 3]
  let B := ndZerosL [3, 5]
  let C := ndZerosL [1, 3]
  let A := ndSet2 A 0 0 (-1/p.Cai*(1/p.Rg+1/p.Ri))
  let A := ndSet2 A 0 2 (1/(p.Cai*p.Ri))
  let A := ndSet2 A 1 1 (-1/p.Cwe*(1/p.Re+1/p.Rw))
  let A := ndSet2 A 1 2 (1/(p.Cwe*p.Rw))
  let A := ndSet2 A 2 0 (1/(p.Cwi*p.Ri))
  let A := ndSet2 A 2 1 (1/(p.Cwi*p.Rw))
  let A := ndSet2 A 2 2 (-1/p.Cwi*(1/p.Rw+1/p.Ri))
  let B := ndSet2 B 0 0 (1/(p.Cai*p.Rg))
  let B := ndSet2 B 0 1 (1/p.Cai)
  let B := ndSet2 B 0 2 (1/p.Cai)
  let B := ndSet2 B 1 0 (1/(p.Cwe*p.Re))
  let B := ndSet2 B 1 3 (1/p.Cwe)
  let B := ndSet2 B 2 4 (1/p.Cwi)
  let C := ndSet2 C 0 0 1
  (A, B, C, PyVal.scalar 0)

/-- The feedthrough matrix of `RCModel.fyu` in `state_space.py` line 172:
`jnp.zeros((1, 5))`. -/
def RCModel_fyuD : NdArr := ndZerosL [1, 5]

/-! ## Continuous dynamics and the `forward` integration loop -/

/-- `zone_state_space(t, x, A, B, d)`: reshape `x` to `(3,1)` and `d` to
`(5,1)`, compute `A@x + B@d`, reshape back to `(3,)` (lines 200-207). -/
def zone_state_space (_t : ℚ) (x : Vec 3) (A B : NdArr) (d : Vec 5) : Vec 3 :=
  let xm : NdArr := ⟨[3, 1], [x 0, x 1, x 2]⟩
  let dm : NdArr := ⟨[5, 1], [d 0, d 1, d 2, d 3, d 4]⟩
  let dx := ndAdd (ndMatmul A xm) (ndMatmul B dm)
  fun i => dx.data.getD i.val 0

/-- The ODE right-hand side wrapper `f(t, x, args)` (line 210). -/
def fODE (t : ℚ) (x : Vec 3) (args : NdArr × NdArr × Vec 5) : Vec 3 :=
  zone_state_space t x args.1 args.2.1 args.2.2

/-- jax array row indexing `d[i, :]`: out-of-range indices clamp to the last
valid row (jax out-of-bounds read semantics). -/
def dget (d : List (Vec 5)) (i : ℕ) : Vec 5 := d.getD (min i (d.length - 1)) zero5

/-- One diffrax `Euler` solver step: `y1 = y0 + (t1 - t0) * f(t0, y0, args)`. -/
def eulerStep (A B : NdArr) (dcur : Vec 5) (tprev tnext : ℚ) (x : Vec 3) : Vec 3 :=
  fun k => x k + (tnext - tprev) * fODE tprev x (A, B, dcur) k

/-- The body of `forward`'s while loop (lines 235-249), with the iteration
count supplied as fuel. State mirrors the python locals: `tprev`, `tnext`,
`x`, the row counter `i`, the current `args` disturbance row `dcur`, and the
accumulators `t_all`, `x_all`. -/
def forwardAux (dtq te : ℚ) (A B : NdArr) (d : List (Vec 5)) :
    ℕ → ℚ → ℚ → Vec 3 → ℕ → Vec 5 → List ℚ → List (Vec 3) → List ℚ × List (Vec 3)
  | 0, _, _, _, _, _, t_all, x_all => (t_all, x_all)
  | fuel+1, tprev, tnext, x, i, dcur, t_all, x_all =>
    if tprev < te then
      let x1 := eulerStep A B dcur tprev tnext x
      let tprev1 := tnext
      let tnext1 := min (tprev1 + dtq) te
      let i1 := i + 1
      let dnext := dget d i1
      forwardAux dtq te A B d fuel tprev1 tnext1 x1 i1 dnext (t_all ++ [tnext1]) (x_all ++ [x1])
    else (t_all, x_all)

/-- Number of iterations of `forward`'s while loop: `tprev` visits
`ts, ts+dt, ts+2dt, ...` capped at `te`, so the loop body runs
`ceil((te-ts)/dt)` times. (For `dt ≤ 0` the source loop would not terminate;
every use in the source has `dt > 0`.) -/
def fuelOf (ts te dtq : ℚ) : ℕ := (⌈(te - ts) / dtq⌉).toNat

/-- `forward(func, ts, te, dt, x0, solver, args)` with `args = (A, B, d)` and
the Euler solver (lines 213-251). Returns `(t_all, x_all)`. -/
def forward (ts te dtq : ℚ) (x0 : Vec 3) (A B : NdArr) (d : List (Vec 5)) :
    List ℚ × List (Vec 3) :=
  forwardAux dtq te A B d (fuelOf ts te dtq) ts (ts + dtq) x0 0 (dget d 0) [ts] [x0]

/-! ## The MPC controller class -/

/-- The fields of the `MPC` python object. `time` and `state` do not exist
until `set_time` / `set_state` are called; they are given placeholder values 0
by the constructor embedding. -/
structure MPC where
  PH : ℕ
  CH : ℕ
  dt : ℚ
  NU : ℕ
  predictor : ZoneParams
  occ_start : ℕ
  occ_end : ℕ
  u_lb : NdArr
  u_ub : NdArr
  T_ub : Fin 24 → ℚ
  T_lb : Fin 24 → ℚ
  price : Fin 24 → ℚ
  u_start : NdArr
  time : ℚ
  state : Vec 3

/-- `MPC.__init__(PH, CH, dt, predictor, price)` (lines 13-48): control bounds
`u_lb = -10`, `u_ub = 0` as `(1,1)` arrays, comfort bounds 26/30 (upper) and
22/12 (lower) switching on occupancy hours `[8, 18)`, and the optimization
start point `u_start = repeat(u_ub, PH).reshape(-1, 1)`. -/
def MPC.init (PH CH : ℕ) (dt : ℚ) (predictor : ZoneParams) (price : Fin 24 → ℚ) : MPC where
  PH := PH
  CH := CH
  dt := dt
  NU := 1
  predictor := predictor
  occ_start := 8
  occ_end := 18
  u_lb := ⟨[1, 1], [-10]⟩
  u_ub := ⟨[1, 1], [0]⟩
  T_ub := fun h => if 8 ≤ h.val ∧ h.val < 18 then 26 else 30
  T_lb := fun h => if 8 ≤ h.val ∧ h.val < 18 then 22 else 12
  price := price
  u_start := ⟨[PH, 1], List.replicate PH 0⟩
  time := 0
  state := fun _ => 0

/-- `MPC.set_time` (lines 51-52). -/
def MPC.set_time (c : MPC) (t : ℚ) : MPC := { c with time := t }

/-- `MPC.set_state` (lines 54-55). -/
def MPC.set_state (c : MPC) (s : Vec 3) : MPC := { c with state := s }

/-- `MPC.set_u_start_from_last_step(u_prev)` (lines 58-59):
`u_start = concatenate((u_prev[NU:], u_ub), axis=0)`. -/
def MPC.set_u_start_from_last_step (c : MPC) (u_prev : NdArr) : MPC :=
  { c with u_start := ndVcat (ndDropRows u_prev c.NU) c.u_ub }

/-- Line 139: `d = concatenate((disturbance[:, :2], u, disturbance[:, 3:]), axis=1)`:
the control channel (column 2) of each disturbance row is replaced by the
corresponding entry of the `(PH, 1)` control array. -/
def spliceControl (dist : List (Vec 5)) (u : NdArr) : List (Vec 5) :=
  List.mapIdx (fun i row => fun j : Fin 5 => if j.val = 2 then ndGet u [i, 0] else row j) dist

/-- `MPC.get_T_violations(state, ts, te, dt, disturbance, T_ub_ph, T_lb_ph)`
(lines 147-164): simulate the zone model over the horizon, take the first
state column `Tz_ph = xs[:, 0]` (an `(n_steps+1,)` array), and sum the relu
hinge of `Tz_ph - T_ub_ph` and `T_lb_ph - Tz_ph`. The bound arrays have shape
`(PH, 1)`, so these subtractions broadcast. (The local `time = self.time` of
line 149 is unused in the source and dropped here.) -/
def MPC.get_T_violations (c : MPC) (state : Vec 3) (ts te dtq : ℚ)
    (disturbance : List (Vec 5)) (T_ub_ph T_lb_ph : NdArr) : ℚ :=
  let abcd := get_ABCD c.predictor
  let xs := (forward ts te dtq state abcd.1 abcd.2.1 disturbance).2
  let Tz_ph : NdArr := ⟨[xs.length], xs.map (fun x => x 0)⟩
  let T_vio_ub_ph := ndRelu (ndSub Tz_ph T_ub_ph)
  let T_vio_lb_ph := ndRelu (ndSub T_lb_ph Tz_ph)
  ndSum T_vio_ub_ph + ndSum T_vio_lb_ph

/-- `MPC.get_u_violations(u)` (lines 166-171):
`sum(relu(u - u_ub) + relu(u_lb - u))` (`u_ub_ph` of line 170 is unused
in the source). -/
def MPC.get_u_violations (c : MPC) (u : NdArr) : ℚ :=
  ndSum (ndAdd (ndRelu (ndSub u c.u_ub)) (ndRelu (ndSub c.u_lb u)))

/-- `MPC.loss_mpc(params, state, ts, te, dt, disturbance, T_ub, T_lb, price)`
(lines 137-145). `T_vios` and `u_vios` are scalars added (by broadcasting) to
the `(PH, 1)` array `price * abs(u) * dt/3600` before `jnp.sum`. -/
def MPC.loss_mpc (c : MPC) (params : NdArr) (state : Vec 3) (ts te dtq : ℚ)
    (disturbance : List (Vec 5)) (T_ub T_lb price : NdArr) : ℚ :=
  let u := params
  let d := spliceControl disturbance u
  let T_vios := c.get_T_violations state ts te dtq d T_ub T_lb
  let u_vios := c.get_u_violations u
  let obj := ndAdd (ndAdd (ndMul (ndMul price (ndAbs u)) (ndScalar (dtq/3600)))
    (ndScalar T_vios)) (ndScalar u_vios)
  ndSum obj

/-! ## The optimization loop of `MPC.step` -/

/-- Line 100: `tolerance = 1e-06`. -/
def tolerance : ℚ := 1/1000000

/-- Line 101: `n_epochs = 1000`. -/
def n_epochs : ℕ := 1000

/-- Line 109: `BIG_NUMBER = 1E6`, the initial value of `loss`. -/
def BIG_NUMBER : ℚ := 1000000

/-- Python `int()` truncation toward zero of a rational. -/
def pyint (q : ℚ) : ℤ :=
  if 0 ≤ q.num then q.num / (q.den : ℤ) else -((-q.num) / (q.den : ℤ))

/-- Lines 89-90: the hour-of-day index `int((int(t) % 86400) / 3600)` of a
time `t` in seconds. Python `%` agrees with `Int.emod` for a positive modulus. -/
def hourOf (tq : ℚ) : Fin 24 :=
  let m : ℤ := Int.emod (pyint tq) 86400
  ⟨m.toNat / 3600, by
    have h0 : 0 ≤ m := Int.emod_nonneg _ (by norm_num)
    have h1 : m < 86400 := Int.emod_lt_of_pos _ (by norm_num)
    have h2 : m.toNat < 86400 := by omega
    have h3 : (3600 : ℕ) > 0 := by norm_num
    exact Nat.div_lt_of_lt_mul (by omega)⟩

/-- Lines 87-96 of `MPC.step`: gather the per-horizon-step price and comfort
bounds into `(PH, 1)` arrays, indexing the daily schedules by hour of day. -/
def MPC.bounds_ph (c : MPC) : NdArr × NdArr × NdArr :=
  let hs := (List.range c.PH).map (fun ph => hourOf (c.time + (ph : ℚ) * c.dt))
  (⟨[c.PH, 1], hs.map (fun h => c.price h)⟩,
   ⟨[c.PH, 1], hs.map (fun h => c.T_ub h)⟩,
   ⟨[c.PH, 1], hs.map (fun h => c.T_lb h)⟩)

/-- The loss closure optimized inside `MPC.step` (lines 121-122): `loss_mpc`
applied at the controller's current `state`, window `[time, time + PH*dt]`,
and the gathered schedule arrays. -/
def MPC.stepLossF (c : MPC) (disturbance : List (Vec 5)) : NdArr → ℚ :=
  fun p => c.loss_mpc p c.state c.time (c.time + (c.PH : ℚ) * c.dt) c.dt disturbance
    (c.bounds_ph).2.1 (c.bounds_ph).2.2 (c.bounds_ph).1

/-- The while loop of `MPC.step` (lines 108-134). `fuel` counts the epochs
remaining out of `n_epochs`; `loss` and `params` are the loop variables;
`u_ph` holds the last value of `params['u']` read at the top of the loop body
(`none` while the body has not yet run: returning `none` is python's
`UnboundLocalError` for `return u_ph`). The update `updF` abstracts the optax
`adamw` state update composed with the gradient half of `value_and_grad`;
the loss half is evaluated exactly. Returns `(u_ph, loss)`. -/
def optLoop {S : Type} (lossF : NdArr → ℚ) (updF : NdArr → S → NdArr × S) :
    ℕ → ℚ → NdArr → S → Option NdArr → Option NdArr × ℚ
  | 0, loss, _, _, u_ph => (u_ph, loss)
  | fuel+1, loss, params, st, u_ph =>
    if tolerance < loss then
      let u := params
      let l := lossF params
      let ps := updF params st
      optLoop lossF updF fuel l ps.1 ps.2 (some u)
    else (u_ph, loss)

/-- `MPC.step(disturbance)` (lines 62-134) as a state transformer: the method
reads `self.time`, `self.state`, `self.u_start` and the schedules, runs the
optimization loop from `u_start`, and performs no assignment to `self`, so the
returned controller record is the input one. `s0F` models `optimizer.init`. -/
def MPC.stepFull (c : MPC) (disturbance : List (Vec 5)) (S : Type)
    (s0F : NdArr → S) (updF : NdArr → S → NdArr × S) : (Option NdArr × ℚ) × MPC :=
  (optLoop (c.stepLossF disturbance) updF n_epochs BIG_NUMBER c.u_start
    (s0F c.u_start) none, c)

/-- Iterates of the abstract optimizer update from a start point: the sequence
of `params` values produced by successive `updF` applications. -/
def iterS {S : Type} (updF : NdArr → S → NdArr × S) (p0 : NdArr) (s0 : S) : ℕ → NdArr × S
  | 0 => (p0, s0)
  | k+1 => updF (iterS updF p0 s0 k).1 (iterS updF p0 s0 k).2

/-- The loss value at the k-th optimizer iterate. -/
def lossIter {S : Type} (lossF : NdArr → ℚ) (updF : NdArr → S → NdArr × S)
    (p0 : NdArr) (s0 : S) (k : ℕ) : ℚ :=
  lossF (iterS updF p0 s0 k).1

/-- First index `m` in `[start, start+k)` satisfying `q`, scanning upward. -/
def firstHit (q : ℕ → Bool) : ℕ → ℕ → Option ℕ
  | 0, _ => none
  | k+1, start => if q start then some start else firstHit q k (start + 1)

/-- One iteration of the closed-loop driver (lines 316-342 of the main script):
set the controller clock and state, run `mpc.step`, warm-start the next
optimization from the result, extract the applied action `u_ch = u_ph[0][0]`,
overwrite the control channel of the true disturbance row, and integrate the
plant one `dt` forward. Returns the updated controller, the new plant state,
and the applied action. -/
def closedLoopStep (c : MPC) (stateV : Vec 3) (t : ℚ) (dist_t_ph : List (Vec 5))
    (S : Type) (s0F : NdArr → S) (updF : NdArr → S → NdArr × S) :
    MPC × Vec 3 × ℚ :=
  let c1 := (c.set_time t).set_state stateV
  let r := c1.stepFull dist_t_ph S s0F updF
  let u_ph := (r.1.1).getD (ndScalar 0)
  let c2 := r.2.set_u_start_from_last_step u_ph
  let u_ch := ndGet u_ph [0, 0]
  let row0 := dist_t_ph.getD 0 zero5
  let dist_t : List (Vec 5) := [fun j => if j.val = 2 then u_ch else row0 j]
  let abcd := get_ABCD c.predictor
  let fw := forward t (t + c.dt) c.dt stateV abcd.1 abcd.2.1 dist_t
  (c2, fw.2.getLastD stateV, u_ch)

/-- Modelled from the spec (section 4.4): the cost formula
`sum_t price_t*|u_t|*(dt/3600) + sum_t relu(Tz_t - T_ub_t)
+ sum_t relu(T_lb_t - Tz_t) + sum_t (relu(u_t - u_ub) + relu(u_lb - u_t))`,
with `t` ranging over the `PH` horizon steps and `Tz_t` the first state
component of the simulated trajectory at step `t`. Stated for comparison with
`MPC.loss_mpc`; it is built from the same simulated trajectory. -/
def specCost (c : MPC) (params : NdArr) (state : Vec 3) (ts te dtq : ℚ)
    (disturbance : List (Vec 5)) (T_ub T_lb price : NdArr) : ℚ :=
  let u := fun t : ℕ => ndGet params [t, 0]
  let d := spliceControl disturbance params
  let abcd := get_ABCD c.predictor
  let xs := (forward ts te dtq state abcd.1 abcd.2.1 d).2
  let Tz := fun t : ℕ => (xs.getD t (fun _ => 0)) 0
  ((List.range c.PH).map (fun t => ndGet price [t, 0] * |u t| * (dtq/3600))).sum
  + ((List.range c.PH).map (fun t => relu (Tz t - ndGet T_ub [t, 0]))).sum
  + ((List.range c.PH).map (fun t => relu (ndGet T_lb [t, 0] - Tz t))).sum
  + ((List.range c.PH).map (fun t => relu (u t - ndGet c.u_ub [0, 0])
      + relu (ndGet c.u_lb [0, 0] - u t))).sum

/-! ## Concrete instances used in evaluations -/

/-- Unit RC parameters (used for concrete evaluations; all formulas stay exact). -/
def onesZP : ZoneParams := ⟨1, 1, 1, 1, 1, 1, 1⟩

/-- An equilibrium disturbance row: ambient 24, no solar gain, control
placeholder 0, no internal gain, no ventilation. With unit RC parameters and
state `(24, 24, 24)` the dynamics vanish. -/
def dRow24 : Vec 5 := vec5 24 0 0 0 0

/-- A two-step disturbance horizon at the equilibrium row. -/
def dW : List (Vec 5) := [dRow24, dRow24]

/-- Controller for the C1 evaluation: `PH = 2`, `CH = 1`, `dt = 1/2` s, unit RC
parameters, constant hourly price 36, clock at 28800 s (hour 8, occupied, so
the bounds are 22/26), plant state `(27, 24, 24)`. -/
def cC1 : MPC :=
  ((MPC.init 2 1 (1/2) onesZP (fun _ => 36)).set_time 28800).set_state (vec3 27 24 24)

/-- Candidate control sequence `(-1, 0)` (inside the control bounds). -/
def uC1 : NdArr := ⟨[2, 1], [-1, 0]⟩

/-- Controller for the C2/C3/C8 evaluations: as `cC1` but with price 1 and
plant state `(24, 24, 24)` (the equilibrium). -/
def cC2 : MPC :=
  ((MPC.init 2 1 (1/2) onesZP (fun _ => 1)).set_time 28800).set_state (vec3 24 24 24)

/-- The zero control sequence of length 2. -/
def uZero2 : NdArr := ⟨[2, 1], [0, 0]⟩

/-- A degenerate optimizer update (identity) with trivial optimizer state:
theorems about the loop quantify over every update, and witnesses instantiate
with this one. -/
def updId : NdArr → Unit → NdArr × Unit := fun p st => (p, st)

/-- The trivial optimizer-state initializer. -/
def s0Unit : NdArr → Unit := fun _ => ()

/-- Disturbance rows for the C9 evaluation. -/
def rowOnes : Vec 5 := vec5 1 1 1 1 1

/-- Second disturbance row for the C9 evaluation. -/
def rowTwos : Vec 5 := vec5 2 2 2 2 2

/-- An extra row beyond the horizon (C9: it must not influence `forward`). -/
def rowNines : Vec 5 := vec5 9 9 9 9 9

/-! ## Helper lemmas about the optimization loop -/

/-- Characterization of the `MPC.step` while loop: starting at the `j`-th
optimizer iterate with current loss variable `l`, the loop either exits at
once (tolerance already met or budget exhausted) or runs until the first
iterate whose loss meets the tolerance (or until the fuel is gone), returning
the iterate read at the top of the last executed iteration together with its
loss. -/
theorem optLoop_eq {S : Type} (lossF : NdArr → ℚ) (updF : NdArr → S → NdArr × S)
    (p0 : NdArr) (s0 : S) :
    ∀ (fuel j : ℕ) (l : ℚ) (u : Option NdArr),
      optLoop lossF updF fuel l (iterS updF p0 s0 j).1 (iterS updF p0 s0 j).2 u =
        (if l ≤ tolerance ∨ fuel = 0 then (u, l)
         else
           match firstHit (fun k => decide (lossIter lossF updF p0 s0 k ≤ tolerance))
               (fuel - 1) j with
           | some m => (some (iterS updF p0 s0 m).1, lossIter lossF updF p0 s0 m)
           | none => (some (iterS updF p0 s0 (j + fuel - 1)).1,
               lossIter lossF updF p0 s0 (j + fuel - 1))) := by
  intro fuel
  induction fuel with
  | zero =>
    intro j l u
    simp [optLoop]
  | succ n ih =>
    intro j l u
    by_cases hl : tolerance < l
    · have hl2 : ¬ (l ≤ tolerance ∨ n + 1 = 0) := by
        rintro (h | h)
        · exact absurd hl (not_lt.mpr h)
        · omega
      rw [if_neg hl2]
      have hstep : updF (iterS updF p0 s0 j).1 (iterS updF p0 s0 j).2
          = iterS updF p0 s0 (j + 1) := rfl
      have hli : lossF (iterS updF p0 s0 j).1 = lossIter lossF updF p0 s0 j := rfl
      simp only [optLoop, if_pos hl]
      rw [hstep, hli, ih (j + 1)]
      cases n with
      | zero =>
        simp [firstHit, lossIter]
      | succ m =>
        by_cases hq : lossIter lossF updF p0 s0 j ≤ tolerance
        · rw [if_pos (Or.inl hq)]
          have : firstHit (fun k => decide (lossIter lossF updF p0 s0 k ≤ tolerance))
              (m + 1 + 1 - 1) j = some j := by
            simp [firstHit, hq]
          rw [this]
        · have hnot : ¬ (lossIter lossF updF p0 s0 j ≤ tolerance ∨ m + 1 = 0) := by
            rintro (h | h)
            · exact hq h
            · omega
          rw [if_neg hnot]
          have hfh : firstHit (fun k => decide (lossIter lossF updF p0 s0 k ≤ tolerance))
              (m + 1 + 1 - 1) j
              = firstHit (fun k => decide (lossIter lossF updF p0 s0 k ≤ tolerance))
                m (j + 1) := by
            simp [firstHit, hq]
          rw [hfh]
          have hidx : j + 1 + (m + 1) - 1 = j + (m + 1 + 1) - 1 := by omega
          rw [show m + 1 - 1 = m from rfl, hidx]
    · have hle : l ≤ tolerance := not_lt.mp hl
      simp only [optLoop, if_neg hl]
      rw [if_pos (Or.inl hle)]

/-- If `firstHit` finds an index, it satisfies the predicate, lies in the
scanned window, and is the first such index. -/
theorem firstHit_some_spec (q : ℕ → Bool) :
    ∀ (k start m : ℕ), firstHit q k start = some m →
      q m = true ∧ start ≤ m ∧ m < start + k ∧
        ∀ j, start ≤ j → j < m → q j = false := by
  intro k
  induction k with
  | zero =>
    intro start m h
    simp [firstHit] at h
  | succ n ih =>
    intro start m h
    by_cases hs : q start
    · rw [firstHit, if_pos hs] at h
      obtain rfl : start = m := by simpa using h
      refine ⟨hs, Nat.le_refl _, by omega, ?_⟩
      intro j hj1 hj2
      exact absurd (Nat.lt_of_le_of_lt hj1 hj2) (Nat.lt_irrefl _)
    · rw [firstHit, if_neg hs] at h
      obtain ⟨h1, h2, h3, h4⟩ := ih (start + 1) m h
      refine ⟨h1, by omega, by omega, ?_⟩
      intro j hj1 hj2
      rcases Nat.eq_or_lt_of_le hj1 with rfl | hlt
      · exact Bool.eq_false_iff.mpr hs
      · exact h4 j hlt hj2

/-- If `firstHit` finds nothing, the predicate fails throughout the window. -/
theorem firstHit_none_spec (q : ℕ → Bool) :
    ∀ (k start : ℕ), firstHit q k start = none →
      ∀ j, start ≤ j → j < start + k → q j = false := by
  intro k
  induction k with
  | zero =>
    intro start _ j hj1 hj2
    omega
  | succ n ih =>
    intro start h j hj1 hj2
    by_cases hs : q start
    · rw [firstHit, if_pos hs] at h
      exact absurd h (by simp)
    · rw [firstHit, if_neg hs] at h
      rcases Nat.eq_or_lt_of_le hj1 with rfl | hlt
      · exact Bool.eq_false_iff.mpr hs
      · exact ih (start + 1) h j hlt (by omega)

set_option maxHeartbeats 1000000 in
/-- Full characterization of one `MPC.step` call: the loop always runs at
least one epoch, returns the optimizer iterate read at the top of its last
executed epoch together with that iterate's loss, runs past an iterate only
when its loss is above tolerance, and stops either at the first iterate
meeting the tolerance or when the epoch budget is reached. -/
theorem stepFull_char {S : Type} (c : MPC) (d : List (Vec 5)) (s0F : NdArr → S)
    (updF : NdArr → S → NdArr × S) :
    ∃ m : ℕ, m + 1 ≤ n_epochs ∧
      (c.stepFull d S s0F updF).1 =
        (some (iterS updF c.u_start (s0F c.u_start) m).1,
         lossIter (c.stepLossF d) updF c.u_start (s0F c.u_start) m) ∧
      (∀ k, k < m → tolerance < lossIter (c.stepLossF d) updF c.u_start (s0F c.u_start) k) ∧
      (lossIter (c.stepLossF d) updF c.u_start (s0F c.u_start) m ≤ tolerance ∨
        m + 1 = n_epochs) := by
  have hstart : c.u_start = (iterS updF c.u_start (s0F c.u_start) 0).1 := rfl
  have hs0 : s0F c.u_start = (iterS updF c.u_start (s0F c.u_start) 0).2 := rfl
  have hloop : (c.stepFull d S s0F updF).1 =
      optLoop (c.stepLossF d) updF n_epochs BIG_NUMBER
        (iterS updF c.u_start (s0F c.u_start) 0).1
        (iterS updF c.u_start (s0F c.u_start) 0).2 none := rfl
  rw [hloop, optLoop_eq]
  have hbig : ¬ (BIG_NUMBER ≤ tolerance ∨ n_epochs = 0) := by
    rintro (h | h)
    · norm_num [BIG_NUMBER, tolerance] at h
    · norm_num [n_epochs] at h
  rw [if_neg hbig]
  have hne : n_epochs = 1000 := rfl
  cases hfh : firstHit
      (fun k => decide (lossIter (c.stepLossF d) updF c.u_start (s0F c.u_start) k ≤ tolerance))
      (n_epochs - 1) 0 with
  | some m =>
    obtain ⟨h1, _, h3, h4⟩ := firstHit_some_spec _ _ _ _ hfh
    refine ⟨m, by omega, rfl, ?_, Or.inl (of_decide_eq_true h1)⟩
    intro k hk
    have := h4 k (Nat.zero_le _) hk
    have hk2 : ¬ (lossIter (c.stepLossF d) updF c.u_start (s0F c.u_start) k ≤ tolerance) := by
      intro hc
      rw [decide_eq_true hc] at this
      exact Bool.noConfusion this
    exact not_le.mp hk2
  | none =>
    have h5 := firstHit_none_spec _ _ _ hfh
    refine ⟨n_epochs - 1, by omega, by rw [Nat.zero_add], ?_, Or.inr (by omega)⟩
    intro k hk
    have := h5 k (Nat.zero_le _) (by omega)
    have hk2 : ¬ (lossIter (c.stepLossF d) updF c.u_start (s0F c.u_start) k ≤ tolerance) := by
      intro hc
      rw [decide_eq_true hc] at this
      exact Bool.noConfusion this
    exact not_le.mp hk2

/-- If the abstract optimizer update preserves array shape and data length,
so does every iterate. -/
theorem iterS_shape {S : Type} (updF : NdArr → S → NdArr × S) (p0 : NdArr) (s0 : S)
    (hupd : ∀ p st, ((updF p st).1).shape = p.shape ∧
      ((updF p st).1).data.length = p.data.length) :
    ∀ m, ((iterS updF p0 s0 m).1).shape = p0.shape ∧
      ((iterS updF p0 s0 m).1).data.length = p0.data.length := by
  intro m
  induction m with
  | zero => exact ⟨rfl, rfl⟩
  | succ k ih =>
    obtain ⟨ih1, ih2⟩ := ih
    obtain ⟨h1, h2⟩ := hupd (iterS updF p0 s0 k).1 (iterS updF p0 s0 k).2
    exact ⟨h1.trans ih1, h2.trans ih2⟩

/-! ## A small-step reading of the optimization loop (for the two-run property) -/

/-- Operational reading of the `MPC.step` while loop (lines 108-134), as a
relation between a loop configuration `(fuel, loss, params, optimizer state,
u_ph)` and the returned `(u_ph, loss)` pair. `fuel_out` is exit by the epoch
budget, `tol_hit` is exit by the tolerance test, and `iterate` executes one
loop body. -/
inductive OptLoopR {S : Type} (lossF : NdArr → ℚ) (updF : NdArr → S → NdArr × S) :
    ℕ → ℚ → NdArr → S → Option NdArr → Option NdArr × ℚ → Prop where
  | fuel_out : ∀ (l : ℚ) (p : NdArr) (st : S) (u : Option NdArr),
      OptLoopR lossF updF 0 l p st u (u, l)
  | tol_hit : ∀ (n : ℕ) (l : ℚ) (p : NdArr) (st : S) (u : Option NdArr),
      l ≤ tolerance → OptLoopR lossF updF (n + 1) l p st u (u, l)
  | iterate : ∀ (n : ℕ) (l : ℚ) (p : NdArr) (st : S) (u : Option NdArr)
      (r : Option NdArr × ℚ), tolerance < l →
      OptLoopR lossF updF n (lossF p) (updF p st).1 (updF p st).2 (some p) r →
      OptLoopR lossF updF (n + 1) l p st u r

/-- A complete run of `MPC.step` on controller `c` and disturbance horizon `d`,
relating the call to its returned `(u_ph, loss)` pair. -/
def StepRun {S : Type} (c : MPC) (d : List (Vec 5)) (s0F : NdArr → S)
    (updF : NdArr → S → NdArr × S) (r : Option NdArr × ℚ) : Prop :=
  OptLoopR (c.stepLossF d) updF n_epochs BIG_NUMBER c.u_start (s0F c.u_start) none r

/-- The loop relation is deterministic: a configuration steps to at most one
result. -/
theorem OptLoopR_det {S : Type} (lossF : NdArr → ℚ) (updF : NdArr → S → NdArr × S)
    {n : ℕ} {l : ℚ} {p : NdArr} {st : S} {u : Option NdArr}
    {r1 r2 : Option NdArr × ℚ}
    (h1 : OptLoopR lossF updF n l p st u r1)
    (h2 : OptLoopR lossF updF n l p st u r2) : r1 = r2 := by
  induction h1 generalizing r2 with
  | fuel_out l p st u =>
    cases h2 with
    | fuel_out => rfl
  | tol_hit n l p st u hle =>
    cases h2 with
    | tol_hit => rfl
    | iterate _ _ _ _ _ _ hlt _ => exact absurd hle (not_le.mpr hlt)
  | iterate n l p st u r hlt hrec ih =>
    cases h2 with
    | tol_hit _ _ _ _ _ hle => exact absurd hle (not_le.mpr hlt)
    | iterate _ _ _ _ _ _ _ hrec2 => exact ih hrec2

/-- The executable loop realizes the loop relation. -/
theorem optLoop_realizes {S : Type} (lossF : NdArr → ℚ) (updF : NdArr → S → NdArr × S) :
    ∀ (n : ℕ) (l : ℚ) (p : NdArr) (st : S) (u : Option NdArr),
      OptLoopR lossF updF n l p st u (optLoop lossF updF n l p st u) := by
  intro n
  induction n with
  | zero =>
    intro l p st u
    exact OptLoopR.fuel_out l p st u
  | succ k ih =>
    intro l p st u
    by_cases h : tolerance < l
    · have heq : optLoop lossF updF (k + 1) l p st u =
          optLoop lossF updF k (lossF p) (updF p st).1 (updF p st).2 (some p) := by
        simp [optLoop, if_pos h]
      rw [heq]
      exact OptLoopR.iterate k l p st u _ h (ih _ _ _ _)
    · have heq : optLoop lossF updF (k + 1) l p st u = (u, l) := by
        simp [optLoop, if_neg h]
      rw [heq]
      exact OptLoopR.tol_hit k l p st u (not_lt.mp h)

/-- A `StepRun` witness for the executable `MPC.stepFull`. -/
theorem stepFull_realizes {S : Type} (c : MPC) (d : List (Vec 5)) (s0F : NdArr → S)
    (updF : NdArr → S → NdArr × S) :
    StepRun c d s0F updF (c.stepFull d S s0F updF).1 :=
  optLoop_realizes (c.stepLossF d) updF n_epochs BIG_NUMBER c.u_start (s0F c.u_start) none

/-! ## Helper lemmas about `forward` and its disturbance reads -/

/-- Congruence for the `forward` loop body: two disturbance arrays that give
the same clamped row read at every index whose step actually starts before
`te` produce identical loop executions. The loop times are tracked through the
invariant `tprev = min (ts + i*dt) te`, `tnext = min (ts + (i+1)*dt) te`. -/
theorem forwardAux_congr (ts dtq te : ℚ) (A B : NdArr) (d dp : List (Vec 5))
    (hdt : 0 < dtq)
    (H : ∀ j : ℕ, ts + (j : ℚ) * dtq < te → dget d j = dget dp j) :
    ∀ (fuel i : ℕ) (x : Vec 3) (tacc : List ℚ) (xacc : List (Vec 3)),
      forwardAux dtq te A B d fuel (min (ts + (i : ℚ) * dtq) te)
          (min (ts + ((i : ℚ) + 1) * dtq) te) x i (dget d i) tacc xacc =
        forwardAux dtq te A B dp fuel (min (ts + (i : ℚ) * dtq) te)
          (min (ts + ((i : ℚ) + 1) * dtq) te) x i (dget dp i) tacc xacc := by
  intro fuel
  induction fuel with
  | zero =>
    intro i x tacc xacc
    rfl
  | succ n ih =>
    intro i x tacc xacc
    by_cases hg : min (ts + (i : ℚ) * dtq) te < te
    · have hlt : ts + (i : ℚ) * dtq < te := by
        rcases le_total (ts + (i : ℚ) * dtq) te with h | h
        · rwa [min_eq_left h] at hg
        · rw [min_eq_right h] at hg
          exact absurd hg (lt_irrefl te)
      have hd : dget d i = dget dp i := H i hlt
      simp only [forwardAux, if_pos hg]
      rw [hd]
      have hmin : min (min (ts + ((i : ℚ) + 1) * dtq) te + dtq) te
          = min (ts + (((i : ℚ) + 1) + 1) * dtq) te := by
        rcases le_total (ts + ((i : ℚ) + 1) * dtq) te with h | h
        · rw [min_eq_left h, show ts + ((i : ℚ) + 1) * dtq + dtq
            = ts + (((i : ℚ) + 1) + 1) * dtq from by ring]
        · rw [min_eq_right h]
          rw [min_eq_right (by linarith), min_eq_right (by nlinarith)]
      rw [hmin]
      have hih := ih (i + 1) (eulerStep A B (dget dp i) (min (ts + (i : ℚ) * dtq) te)
        (min (ts + ((i : ℚ) + 1) * dtq) te) x)
        (tacc ++ [min (ts + (((i : ℚ) + 1) + 1) * dtq) te])
        (xacc ++ [eulerStep A B (dget dp i) (min (ts + (i : ℚ) * dtq) te)
          (min (ts + ((i : ℚ) + 1) * dtq) te) x])
      push_cast at hih
      exact hih
    · simp only [forwardAux, if_neg hg]

/-- Rows below the cutoff agree when the `take`s agree. -/
theorem getD_eq_of_take_eq {α : Type} (dflt : α) :
    ∀ (n j : ℕ) (d dp : List α), d.take n = dp.take n → j < n →
      d.getD j dflt = dp.getD j dflt := by
  intro n
  induction n with
  | zero =>
    intro j d dp _ hj
    omega
  | succ m ih =>
    intro j d dp htake hj
    cases d with
    | nil =>
      cases dp with
      | nil => rfl
      | cons b bs => simp [List.take_succ_cons] at htake
    | cons a as =>
      cases dp with
      | nil => simp [List.take_succ_cons] at htake
      | cons b bs =>
        simp only [List.take_succ_cons, List.cons.injEq] at htake
        obtain ⟨rfl, htail⟩ := htake
        cases j with
        | zero => rfl
        | succ jj =>
          rw [List.getD_cons_succ, List.getD_cons_succ]
          exact ih jj as bs htail (by omega)

/-- The clamped read at index `n` of an `n`-row disturbance list is its last
row. -/
theorem dget_at_length (d : List (Vec 5)) (n : ℕ) (hlen : d.length = n)
    (hn : 1 ≤ n) : dget d n = d.getD (n - 1) zero5 := by
  unfold dget
  rw [hlen, min_eq_right (by omega)]

/-- `forward` over a window of exactly `n` steps is unchanged when the
disturbance list is replaced by any list with the same first `n` rows. -/
theorem forward_take_congr (ts dtq : ℚ) (n : ℕ) (x0 : Vec 3) (A B : NdArr)
    (d dp : List (Vec 5)) (hdt : 0 < dtq) (hn : 1 ≤ n) (hlen : d.length = n)
    (htake : d.take n = dp.take n) :
    forward ts (ts + (n : ℚ) * dtq) dtq x0 A B d
      = forward ts (ts + (n : ℚ) * dtq) dtq x0 A B dp := by
  have hdpn : n ≤ dp.length := by
    have h1 := congrArg List.length htake
    rw [List.length_take, List.length_take, hlen] at h1
    omega
  have H : ∀ j : ℕ, ts + (j : ℚ) * dtq < ts + (n : ℚ) * dtq → dget d j = dget dp j := by
    intro j hj
    have hj2 : (j : ℚ) * dtq < (n : ℚ) * dtq := by linarith
    have hj3 : (j : ℚ) < (n : ℚ) := lt_of_mul_lt_mul_right hj2 (le_of_lt hdt)
    have hj4 : j < n := by exact_mod_cast hj3
    unfold dget
    rw [hlen, min_eq_left (by omega), min_eq_left (by omega)]
    exact getD_eq_of_take_eq zero5 n j d dp htake hj4
  have hn1 : (1 : ℚ) ≤ (n : ℚ) := by exact_mod_cast hn
  have key := forwardAux_congr ts dtq (ts + (n : ℚ) * dtq) A B d dp hdt H
    (fuelOf ts (ts + (n : ℚ) * dtq) dtq) 0 x0 [ts] [x0]
  have e0 : min (ts + ((0 : ℕ) : ℚ) * dtq) (ts + (n : ℚ) * dtq) = ts := by
    rw [show ts + ((0 : ℕ) : ℚ) * dtq = ts from by push_cast; ring]
    exact min_eq_left (by nlinarith)
  have e1 : min (ts + (((0 : ℕ) : ℚ) + 1) * dtq) (ts + (n : ℚ) * dtq) = ts + dtq := by
    rw [show ts + (((0 : ℕ) : ℚ) + 1) * dtq = ts + dtq from by push_cast; ring]
    exact min_eq_left (by nlinarith)
  rw [e0, e1] at key
  exact key

/-! ## C6 helper: the entries of the warm-started `u_start` -/

/-- The warm-started start point as an explicit array: drop the first
(`NU = 1`) row of `u_prev` and append the `u_ub` row. -/
theorem set_u_start_data (c : MPC) (u_prev : NdArr)
    (hsh : u_prev.shape = [c.PH, 1]) (hNU : c.NU = 1) (hub : c.u_ub.shape = [1, 1]) :
    (c.set_u_start_from_last_step u_prev).u_start
      = ⟨[(c.PH - 1) + 1, 1], u_prev.data.drop 1 ++ c.u_ub.data⟩ := by
  show ndVcat (ndDropRows u_prev c.NU) c.u_ub = _
  rw [hNU]
  unfold ndDropRows ndVcat
  rw [hsh, hub]
  simp

/-! ## Claim theorems -/

/-- C4 (counterexample): as stated, the claim is false in one respect: at an
explicit parameter vector, the `D` returned by `get_ABCD` is the python scalar
`0`, not a materialized `1×5` zero row (that row exists in `RCModel.fyu` of
`state_space.py`, not in `get_ABCD`). -/
theorem get_ABCD_D_row_refuted :
    (get_ABCD onesZP).2.2.2 = PyVal.scalar 0 ∧
    (get_ABCD onesZP).2.2.2 ≠ PyVal.arr (ndZerosL [1, 5]) :=
  ⟨rfl, by decide⟩

/-- C4 (amended): for every parameter tuple, `get_ABCD` returns a `3×3` matrix
`A` and a `3×5` matrix `B` with exactly the stated closed-form nonzero entries
and zeros everywhere else, a `1×3` matrix `C` with `C[0,0] = 1` and zeros
elsewhere, and `D` equal to the scalar zero; the `1×5` zero feedthrough row
appears as `RCModel.fyu`'s `D` in `state_space.py`. -/
theorem get_ABCD_entries (p : ZoneParams) :
    (get_ABCD p).1.shape = [3, 3] ∧
    (get_ABCD p).2.1.shape = [3, 5] ∧
    (get_ABCD p).2.2.1.shape = [1, 3] ∧
    ndGet (get_ABCD p).1 [0, 0] = -1/p.Cai*(1/p.Rg+1/p.Ri) ∧
    ndGet (get_ABCD p).1 [0, 1] = 0 ∧
    ndGet (get_ABCD p).1 [0, 2] = 1/(p.Cai*p.Ri) ∧
    ndGet (get_ABCD p).1 [1, 0] = 0 ∧
    ndGet (get_ABCD p).1 [1, 1] = -1/p.Cwe*(1/p.Re+1/p.Rw) ∧
    ndGet (get_ABCD p).1 [1, 2] = 1/(p.Cwe*p.Rw) ∧
    ndGet (get_ABCD p).1 [2, 0] = 1/(p.Cwi*p.Ri) ∧
    ndGet (get_ABCD p).1 [2, 1] = 1/(p.Cwi*p.Rw) ∧
    ndGet (get_ABCD p).1 [2, 2] = -1/p.Cwi*(1/p.Rw+1/p.Ri) ∧
    ndGet (get_ABCD p).2.1 [0, 0] = 1/(p.Cai*p.Rg) ∧
    ndGet (get_ABCD p).2.1 [0, 1] = 1/p.Cai ∧
    ndGet (get_ABCD p).2.1 [0, 2] = 1/p.Cai ∧
    ndGet (get_ABCD p).2.1 [0, 3] = 0 ∧
    ndGet (get_ABCD p).2.1 [0, 4] = 0 ∧
    ndGet (get_ABCD p).2.1 [1, 0] = 1/(p.Cwe*p.Re) ∧
    ndGet (get_ABCD p).2.1 [1, 1] = 0 ∧
    ndGet (get_ABCD p).2.1 [1, 2] = 0 ∧
    ndGet (get_ABCD p).2.1 [1, 3] = 1/p.Cwe ∧
    ndGet (get_ABCD p).2.1 [1, 4] = 0 ∧
    ndGet (get_ABCD p).2.1 [2, 0] = 0 ∧
    ndGet (get_ABCD p).2.1 [2, 1] = 0 ∧
    ndGet (get_ABCD p).2.1 [2, 2] = 0 ∧
    ndGet (get_ABCD p).2.1 [2, 3] = 0 ∧
    ndGet (get_ABCD p).2.1 [2, 4] = 1/p.Cwi ∧
    ndGet (get_ABCD p).2.2.1 [0, 0] = 1 ∧
    ndGet (get_ABCD p).2.2.1 [0, 1] = 0 ∧
    ndGet (get_ABCD p).2.2.1 [0, 2] = 0 ∧
    (get_ABCD p).2.2.2 = PyVal.scalar 0 ∧
    RCModel_fyuD = ⟨[1, 5], [0, 0, 0, 0, 0]⟩ :=
  ⟨rfl, rfl, rfl, rfl, rfl, rfl, rfl, rfl, rfl, rfl, rfl, rfl, rfl, rfl, rfl,
   rfl, rfl, rfl, rfl, rfl, rfl, rfl, rfl, rfl, rfl, rfl, rfl, rfl, rfl, rfl,
   rfl, rfl⟩

/-- C5: for every controller, disturbance horizon, optimizer-state type and
abstract optimizer update, the optimization loop inside `MPC.step` runs some
`m + 1 ≤ 1000` epochs and then stops; it runs past an iterate only while the
evaluated cost is above the tolerance `1e-06`; it stops either because the
cost first fell to at most the tolerance or because the epoch count reached
the budget `n_epochs = 1000`; and in every case (budget exhaustion included)
it raises nothing and returns a control sequence (`some` iterate). -/
theorem step_loop_termination {S : Type} (c : MPC) (d : List (Vec 5))
    (s0F : NdArr → S) (updF : NdArr → S → NdArr × S) :
    ∃ m : ℕ, m + 1 ≤ n_epochs ∧
      (c.stepFull d S s0F updF).1.1 = some (iterS updF c.u_start (s0F c.u_start) m).1 ∧
      (∀ k, k < m → tolerance < lossIter (c.stepLossF d) updF c.u_start (s0F c.u_start) k) ∧
      (lossIter (c.stepLossF d) updF c.u_start (s0F c.u_start) m ≤ tolerance ∨
        m + 1 = n_epochs) := by
  obtain ⟨m, h1, h2, h3, h4⟩ := stepFull_char c d s0F updF
  refine ⟨m, h1, ?_, h3, h4⟩
  rw [h2]

/-- C7: `MPC.step` performs no assignment to the controller object: the
controller record after the call (and hence after every internal cost
evaluation, all of which are pure) is the one before it, field by field:
state, time, warm start, bound schedules, price schedule and control bounds
are untouched. -/
theorem step_frame_preservation {S : Type} (c : MPC) (d : List (Vec 5))
    (s0F : NdArr → S) (updF : NdArr → S → NdArr × S) :
    (c.stepFull d S s0F updF).2 = c ∧
    (c.stepFull d S s0F updF).2.state = c.state ∧
    (c.stepFull d S s0F updF).2.time = c.time ∧
    (c.stepFull d S s0F updF).2.u_start = c.u_start ∧
    (c.stepFull d S s0F updF).2.T_ub = c.T_ub ∧
    (c.stepFull d S s0F updF).2.T_lb = c.T_lb ∧
    (c.stepFull d S s0F updF).2.price = c.price ∧
    (c.stepFull d S s0F updF).2.u_lb = c.u_lb ∧
    (c.stepFull d S s0F updF).2.u_ub = c.u_ub :=
  ⟨rfl, rfl, rfl, rfl, rfl, rfl, rfl, rfl, rfl⟩

/-- C10: the loss variable starts at `BIG_NUMBER = 1e6`, above the tolerance,
so at least one epoch always runs (the returned option is `some`); the
returned sequence is the iterate read at the top of the last executed epoch —
the update computed during that epoch is discarded — and the final value of
the loop's `loss` variable is exactly the loss of the returned sequence. -/
theorem step_returns_last_evaluated_iterate {S : Type} (c : MPC) (d : List (Vec 5))
    (s0F : NdArr → S) (updF : NdArr → S → NdArr × S) :
    tolerance < BIG_NUMBER ∧
    ∃ (p : NdArr) (m : ℕ), m + 1 ≤ n_epochs ∧
      p = (iterS updF c.u_start (s0F c.u_start) m).1 ∧
      (c.stepFull d S s0F updF).1 = (some p, c.stepLossF d p) := by
  refine ⟨by norm_num [tolerance, BIG_NUMBER], ?_⟩
  obtain ⟨m, h1, h2, _, _⟩ := stepFull_char c d s0F updF
  exact ⟨(iterS updF c.u_start (s0F c.u_start) m).1, m, h1, rfl, h2⟩

/-- C1 (evaluation at the failing input): at `PH = 2`, unit RC parameters,
price 36, `dt = 1/2`, hour 8, state `(27, 24, 24)`, control `(-1, 0)` and an
equilibrium disturbance, the code's `loss_mpc` returns `801/200 = 1/200 + 4`
(the single 1-degree violation of the first trajectory sample is counted once
per bound row by the `(3,)`-vs-`(2,1)` broadcast, and the resulting scalar is
then added to both rows of the `(2,1)` price array before `jnp.sum`), while
the spec formula gives `201/200 = 1/200 + 1`. -/
theorem loss_mpc_spec_formula_refuted :
    cC1.loss_mpc uC1 cC1.state cC1.time (cC1.time + (cC1.PH : ℚ) * cC1.dt) cC1.dt dW
        (cC1.bounds_ph).2.1 (cC1.bounds_ph).2.2 (cC1.bounds_ph).1 = 801/200 ∧
    specCost cC1 uC1 cC1.state cC1.time (cC1.time + (cC1.PH : ℚ) * cC1.dt) cC1.dt dW
        (cC1.bounds_ph).2.1 (cC1.bounds_ph).2.2 (cC1.bounds_ph).1 = 201/200 ∧
    (801/200 : ℚ) ≠ 201/200 :=
  ⟨by decide, by decide, by decide⟩

/-- C2 (evaluation at the failing input): with every quantity fixed and the
trajectory otherwise strictly inside its bounds, lifting the single trajectory
sample `Tz_0` from 24 to 27 (one degree past the occupied upper bound 26)
raises the total cost from 0 to 4, not by the claimed `Δ = 1`; the
`get_T_violations` stage alone already returns 2 (one count per `(PH, 1)`
bound row), and the scalar-into-`(PH, 1)` addition in `loss_mpc` doubles it
again. -/
theorem T_violation_unit_slope_refuted :
    cC2.loss_mpc uZero2 (vec3 24 24 24) cC2.time (cC2.time + (cC2.PH : ℚ) * cC2.dt)
        cC2.dt dW (cC2.bounds_ph).2.1 (cC2.bounds_ph).2.2 (cC2.bounds_ph).1 = 0 ∧
    cC2.loss_mpc uZero2 (vec3 27 24 24) cC2.time (cC2.time + (cC2.PH : ℚ) * cC2.dt)
        cC2.dt dW (cC2.bounds_ph).2.1 (cC2.bounds_ph).2.2 (cC2.bounds_ph).1 = 4 ∧
    cC2.get_T_violations (vec3 27 24 24) cC2.time (cC2.time + (cC2.PH : ℚ) * cC2.dt)
        cC2.dt (spliceControl dW uZero2) (cC2.bounds_ph).2.1 (cC2.bounds_ph).2.2 = 2 ∧
    ((4 : ℚ) - 0 ≠ 1) ∧ ((2 : ℚ) ≠ 1) :=
  ⟨by decide, by decide, by decide, by decide, by decide⟩

/-- C3 (counterexample): at a concrete instance, `MPC.step` hands its caller
the whole `(PH, 1) = (2, 1)` iterate (here the unchanged warm start, since the
cost at the equilibrium is already 0), not a single scalar: the returned value
has 2 entries. -/
theorem step_single_scalar_refuted :
    (cC2.stepFull dW Unit s0Unit updId).1.1 = some ⟨[2, 1], [0, 0]⟩ ∧
    (NdArr.mk [2, 1] [0, 0]).data.length = 2 ∧
    ¬ (NdArr.mk [2, 1] [0, 0]).data.length = 1 :=
  ⟨by decide, rfl, by decide⟩

/-- C3 (amended): `MPC.step` returns the full length-`PH` optimized control
sequence (a `(PH, 1)` array, provided the abstract optimizer update preserves
shapes, as optax does); it is the closed-loop driver that extracts the single
applied scalar action `u_ph[0][0]` after `step` returns. -/
theorem step_returns_full_sequence {S : Type} (c : MPC) (d : List (Vec 5))
    (s0F : NdArr → S) (updF : NdArr → S → NdArr × S)
    (hsh : c.u_start.shape = [c.PH, 1])
    (hupd : ∀ p st, ((updF p st).1).shape = p.shape ∧
      ((updF p st).1).data.length = p.data.length) :
    (∃ r : NdArr, (c.stepFull d S s0F updF).1.1 = some r ∧ r.shape = [c.PH, 1]) ∧
    ∀ (t : ℚ) (sv : Vec 3), ∃ r : NdArr,
      (((c.set_time t).set_state sv).stepFull d S s0F updF).1.1 = some r ∧
      r.shape = [c.PH, 1] ∧
      (closedLoopStep c sv t d S s0F updF).2.2 = ndGet r [0, 0] := by
  constructor
  · obtain ⟨m, _, h2, _, _⟩ := stepFull_char c d s0F updF
    refine ⟨(iterS updF c.u_start (s0F c.u_start) m).1, by rw [h2], ?_⟩
    rw [(iterS_shape updF c.u_start (s0F c.u_start) hupd m).1, hsh]
  · intro t sv
    obtain ⟨m, _, h2, _, _⟩ := stepFull_char ((c.set_time t).set_state sv) d s0F updF
    have h3 : (((c.set_time t).set_state sv).stepFull d S s0F updF).1.1
        = some (iterS updF ((c.set_time t).set_state sv).u_start
          (s0F ((c.set_time t).set_state sv).u_start) m).1 := by rw [h2]
    refine ⟨_, h3, ?_, ?_⟩
    · rw [(iterS_shape updF ((c.set_time t).set_state sv).u_start _ hupd m).1]
      exact hsh
    · have h4 : (closedLoopStep c sv t d S s0F updF).2.2
          = ndGet ((((c.set_time t).set_state sv).stepFull d S s0F updF).1.1.getD
            (ndScalar 0)) [0, 0] := by
        simp only [closedLoopStep]
      rw [h4, h3, Option.getD_some]

/-- C3 (amended, witness): the concrete instance discharging the hypotheses of
the amended theorem. -/
theorem step_returns_full_sequence_witness :
    (cC2.u_start.shape = [cC2.PH, 1] ∧
      ∀ (p : NdArr) (st : Unit), ((updId p st).1).shape = p.shape ∧
        ((updId p st).1).data.length = p.data.length) ∧
    ((∃ r : NdArr, (cC2.stepFull dW Unit s0Unit updId).1.1 = some r ∧
        r.shape = [cC2.PH, 1]) ∧
     ∀ (t : ℚ) (sv : Vec 3), ∃ r : NdArr,
       (((cC2.set_time t).set_state sv).stepFull dW Unit s0Unit updId).1.1 = some r ∧
       r.shape = [cC2.PH, 1] ∧
       (closedLoopStep cC2 sv t dW Unit s0Unit updId).2.2 = ndGet r [0, 0]) :=
  ⟨⟨rfl, fun _ _ => ⟨rfl, rfl⟩⟩,
   step_returns_full_sequence cC2 dW s0Unit updId rfl (fun _ _ => ⟨rfl, rfl⟩)⟩

/-- C6: the warm start `set_u_start_from_last_step(u_prev)` stores `u_prev`
shifted left by one entry with the freed last entry set to `u_ub`, and
`MPC.step` starts its optimizer exactly from the stored `u_start` (the
returned sequence is an `updF`-iterate of it). -/
theorem set_u_start_warm_start {S : Type} (c : MPC) (u_prev : NdArr)
    (hsh : u_prev.shape = [c.PH, 1]) (hlen : u_prev.data.length = c.PH)
    (hNU : c.NU = 1) (hub : c.u_ub.shape = [1, 1]) (hPH : 1 ≤ c.PH) :
    (∀ i : ℕ, i + 1 < c.PH →
        ndGet (c.set_u_start_from_last_step u_prev).u_start [i, 0]
          = ndGet u_prev [i + 1, 0]) ∧
    ndGet (c.set_u_start_from_last_step u_prev).u_start [c.PH - 1, 0]
      = ndGet c.u_ub [0, 0] ∧
    (c.set_u_start_from_last_step u_prev).u_start.shape = [c.PH, 1] ∧
    (∀ (d : List (Vec 5)) (s0F : NdArr → S) (updF : NdArr → S → NdArr × S),
      ∃ m : ℕ, ((c.set_u_start_from_last_step u_prev).stepFull d S s0F updF).1.1
        = some (iterS updF (c.set_u_start_from_last_step u_prev).u_start
            (s0F (c.set_u_start_from_last_step u_prev).u_start) m).1) := by
  have hdata := set_u_start_data c u_prev hsh hNU hub
  have hflat : ∀ i : ℕ, flatIdx [(c.PH - 1) + 1, 1] [i, 0] = i := by
    intro i
    simp [flatIdx]
  have hdlen : (u_prev.data.drop 1).length = c.PH - 1 := by
    rw [List.length_drop, hlen]
  refine ⟨?_, ?_, ?_, ?_⟩
  · intro i hi
    rw [hdata]
    show (u_prev.data.drop 1 ++ c.u_ub.data).getD (flatIdx [(c.PH - 1) + 1, 1] [i, 0]) 0
      = ndGet u_prev [i + 1, 0]
    rw [hflat, List.getD_eq_getElem?_getD, List.getElem?_append_left (by omega),
      List.getElem?_drop]
    show _ = u_prev.data.getD (flatIdx u_prev.shape [i + 1, 0]) 0
    rw [hsh]
    have hf2 : flatIdx [c.PH, 1] [i + 1, 0] = i + 1 := by simp [flatIdx]
    rw [hf2, List.getD_eq_getElem?_getD, Nat.add_comm 1 i]
  · rw [hdata]
    show (u_prev.data.drop 1 ++ c.u_ub.data).getD
      (flatIdx [(c.PH - 1) + 1, 1] [c.PH - 1, 0]) 0 = ndGet c.u_ub [0, 0]
    rw [hflat, List.getD_eq_getElem?_getD, List.getElem?_append_right (by omega), hdlen]
    show c.u_ub.data[c.PH - 1 - (c.PH - 1)]?.getD 0
      = c.u_ub.data.getD (flatIdx c.u_ub.shape [0, 0]) 0
    rw [hub]
    have hf0 : flatIdx [1, 1] [0, 0] = 0 := rfl
    rw [hf0, Nat.sub_self, List.getD_eq_getElem?_getD]
  · rw [hdata]
    show ([(c.PH - 1) + 1, 1] : List ℕ) = [c.PH, 1]
    have he : (c.PH - 1) + 1 = c.PH := by omega
    rw [he]
  · intro d s0F updF
    obtain ⟨m, _, h2, _, _⟩ := stepFull_char (c.set_u_start_from_last_step u_prev) d s0F updF
    exact ⟨m, by rw [h2]⟩

/-- C6 (witness): the warm-start theorem applied at a concrete controller and
previous sequence `(-3, -5)`. -/
theorem set_u_start_warm_start_witness :
    ((NdArr.mk [2, 1] [-3, -5]).shape = [cC2.PH, 1] ∧
     (NdArr.mk [2, 1] [-3, -5]).data.length = cC2.PH ∧
     cC2.NU = 1 ∧ cC2.u_ub.shape = [1, 1] ∧ 1 ≤ cC2.PH) ∧
    ((∀ i : ℕ, i + 1 < cC2.PH →
        ndGet (cC2.set_u_start_from_last_step ⟨[2, 1], [-3, -5]⟩).u_start [i, 0]
          = ndGet ⟨[2, 1], [-3, -5]⟩ [i + 1, 0]) ∧
     ndGet (cC2.set_u_start_from_last_step ⟨[2, 1], [-3, -5]⟩).u_start [cC2.PH - 1, 0]
       = ndGet cC2.u_ub [0, 0] ∧
     (cC2.set_u_start_from_last_step ⟨[2, 1], [-3, -5]⟩).u_start.shape = [cC2.PH, 1] ∧
     (∀ (d : List (Vec 5)) (s0F : NdArr → Unit) (updF : NdArr → Unit → NdArr × Unit),
       ∃ m : ℕ, ((cC2.set_u_start_from_last_step ⟨[2, 1], [-3, -5]⟩).stepFull
           d Unit s0F updF).1.1
         = some (iterS updF (cC2.set_u_start_from_last_step ⟨[2, 1], [-3, -5]⟩).u_start
             (s0F (cC2.set_u_start_from_last_step ⟨[2, 1], [-3, -5]⟩).u_start) m).1)) :=
  ⟨⟨rfl, rfl, rfl, rfl, by decide⟩,
   @set_u_start_warm_start Unit cC2 ⟨[2, 1], [-3, -5]⟩ rfl rfl rfl rfl (by decide)⟩

/-- C8: two runs of `MPC.step` from the same controller, warm start and
disturbance horizon produce the same `(u_ph, loss)` result: the loop relation
is deterministic, and no source of randomness enters the loop. -/
theorem step_two_run_deterministic {S : Type} (c : MPC) (d : List (Vec 5))
    (s0F : NdArr → S) (updF : NdArr → S → NdArr × S)
    (r1 r2 : Option NdArr × ℚ)
    (h1 : StepRun c d s0F updF r1) (h2 : StepRun c d s0F updF r2) : r1 = r2 :=
  OptLoopR_det (c.stepLossF d) updF h1 h2

/-- C8 (witness): two runs at a concrete instance, both realized by the
executable loop, are equal. -/
theorem step_two_run_deterministic_witness :
    StepRun cC2 dW s0Unit updId ((cC2.stepFull dW Unit s0Unit updId).1) ∧
    (cC2.stepFull dW Unit s0Unit updId).1 = (cC2.stepFull dW Unit s0Unit updId).1 :=
  ⟨stepFull_realizes cC2 dW s0Unit updId,
   step_two_run_deterministic cC2 dW s0Unit updId _ _
     (stepFull_realizes cC2 dW s0Unit updId) (stepFull_realizes cC2 dW s0Unit updId)⟩

/-- C9: in a `forward` run of exactly `n` steps over an `n`-row disturbance
array, the loop's final row read `d[n, :]` is the clamped (last) row of the
array, and the returned `(t_all, x_all)` depend only on rows `0 .. n-1`:
replacing the array by any list with the same first `n` rows leaves the result
unchanged. (`forward` is total by construction.) -/
theorem forward_clamp_and_row_dependence (ts dtq : ℚ) (n : ℕ) (x0 : Vec 3)
    (A B : NdArr) (d dp : List (Vec 5)) (hdt : 0 < dtq) (hn : 1 ≤ n)
    (hlen : d.length = n) (htake : d.take n = dp.take n) :
    dget d n = d.getD (n - 1) zero5 ∧
    forward ts (ts + (n : ℚ) * dtq) dtq x0 A B d
      = forward ts (ts + (n : ℚ) * dtq) dtq x0 A B dp :=
  ⟨dget_at_length d n hlen hn, forward_take_congr ts dtq n x0 A B d dp hdt hn hlen htake⟩

/-- C9 (witness): a two-step run where the disturbance list is extended by an
arbitrary extra row; the trajectories coincide. -/
theorem forward_clamp_and_row_dependence_witness :
    ((0 : ℚ) < 1 ∧ 1 ≤ 2 ∧ ([rowOnes, rowTwos] : List (Vec 5)).length = 2 ∧
      ([rowOnes, rowTwos] : List (Vec 5)).take 2
        = ([rowOnes, rowTwos, rowNines] : List (Vec 5)).take 2) ∧
    (dget [rowOnes, rowTwos] 2 = ([rowOnes, rowTwos] : List (Vec 5)).getD (2 - 1) zero5 ∧
     forward 0 (0 + ((2 : ℕ) : ℚ) * 1) 1 (vec3 1 0 0) (get_ABCD onesZP).1
         (get_ABCD onesZP).2.1 [rowOnes, rowTwos]
       = forward 0 (0 + ((2 : ℕ) : ℚ) * 1) 1 (vec3 1 0 0) (get_ABCD onesZP).1
         (get_ABCD onesZP).2.1 [rowOnes, rowTwos, rowNines]) :=
  ⟨⟨by norm_num, by norm_num, rfl, by decide⟩,
   forward_clamp_and_row_dependence 0 1 2 (vec3 1 0 0) (get_ABCD onesZP).1
     (get_ABCD onesZP).2.1 [rowOnes, rowTwos] [rowOnes, rowTwos, rowNines]
     (by norm_num) (by norm_num) rfl (by decide)⟩

end RatKernelEval
